import Mathlib

/-!
Verification development for the initcall-debug dmesg analyzer.

The Python source (`analyze-initcall-debug.py`) is shallowly embedded here:
the `Run`/`Entity` data model, the timeline-engine ingestion loop over typed
events, the report computations that read the `init` singleton, and the
probe slot-assignment loop from the HTML bootchart section.

Machine integers in the source are Python `int`s (unbounded), so they are
modelled as `Int`; fields parsed by the regexes `[0-9]+` (timestamps and
durations) are carried as `Nat` in events and cast on entry.
-/

/-- The reserved deferred-probe return code (`ERRCODE_PROBE_DEFER = 517`). -/
def ERRCODE_PROBE_DEFER : Nat := 517

/-- One timed execution interval, mirroring class `Run`.  The `ended` flag
mirrors the `_ended` attribute: set at construction to `end_time >= 0`, and
forced to `true` by the `end_time` setter. -/
structure Run where
  start_time : Int
  end_time : Int
  duration : Int
  retval : Int
  ended : Bool
deriving DecidableEq, Repr

/-- Source `Run.__init__(start_time, end_time=-1, duration=0, retval=0)`:
`_ended = (end_time >= 0)`. -/
def Run.make (s e d rv : Int) : Run :=
  ⟨s, e, d, rv, decide (0 ≤ e)⟩

/-- Closing a run through the property setters (`end_time` setter also sets
`_ended = True`, then `duration` and `retval` are overwritten). -/
def Run.close (r : Run) (e d rv : Int) : Run :=
  ⟨r.start_time, e, d, rv, true⟩

/-- Source `Run.running`: `not self._ended or abs(self.retval) == ERRCODE_PROBE_DEFER`. -/
def Run.running (r : Run) : Bool :=
  !r.ended || (r.retval.natAbs == ERRCODE_PROBE_DEFER)

/-- Source `Run.failed`: `(self.retval != 0) and not self.running`. -/
def Run.failed (r : Run) : Bool :=
  (r.retval != 0) && !r.running

/-- Fallback run used for the (unreachable) empty-run-list case of the
`runs[-1]` / `runs[0]` accessors; every `Entity` is constructed with one run
and runs are never removed. -/
def defRun : Run := ⟨0, -1, 0, 0, false⟩

/-- A named entity owning an ordered run list, mirroring class `Entity`.
The color triple is the `random.randint(0,255)` presentation tag. -/
structure Entity where
  name : String
  color : Nat × Nat × Nat
  runs : List Run
deriving DecidableEq, Repr

/-- Source `Entity.__init__(name, start_time=0, end_time=0, duration=0, retval=0)`:
one initial run built from the given fields.  Note the `end_time` default in
the source is `0`, not the `-1` sentinel of `Run.__init__`. -/
def Entity.make (name : String) (color : Nat × Nat × Nat) (s e d rv : Int) : Entity :=
  ⟨name, color, [Run.make s e d rv]⟩

def Entity.first_start_time (en : Entity) : Int :=
  (en.runs.headD defRun).start_time

def Entity.last_start_time (en : Entity) : Int :=
  (en.runs.getLastD defRun).start_time

def Entity.first_end_time (en : Entity) : Int :=
  (en.runs.headD defRun).end_time

def Entity.last_end_time (en : Entity) : Int :=
  (en.runs.getLastD defRun).end_time

/-- Source `Entity.duration`: `sum([r.duration for r in self._runs])`. -/
def Entity.duration (en : Entity) : Int :=
  (en.runs.map Run.duration).sum

/-- Source `Entity.wasted_time`: sum of durations of runs with
`x.failed or abs(x.retval) == ERRCODE_PROBE_DEFER`. -/
def Entity.wasted_time (en : Entity) : Int :=
  ((en.runs.filter (fun r => r.failed || (r.retval.natAbs == ERRCODE_PROBE_DEFER))).map
    Run.duration).sum

def Entity.retval (en : Entity) : Int :=
  (en.runs.getLastD defRun).retval

def Entity.failed (en : Entity) : Bool :=
  (en.runs.getLastD defRun).failed

def Entity.running (en : Entity) : Bool :=
  (en.runs.getLastD defRun).running

/-- Source `Entity.running_at(time)`: some run has `start_time < time and end_time > time`. -/
def Entity.running_at (en : Entity) (t : Int) : Bool :=
  en.runs.any (fun r => r.start_time < t && r.end_time > t)

/-- Source `Entity.addStart(start_time)`: append `Run(start_time)` (open run). -/
def Entity.addStart (en : Entity) (s : Int) : Entity :=
  { en with runs := en.runs ++ [Run.make s (-1) 0 0] }

/-- Source `Entity.addEnd(end_time, duration, retval)`: if the last run's `end_time`
is `>= 0` append `Run(-1, end_time, duration, retval)`, else close the last
run in place through the setters. -/
def Entity.addEnd (en : Entity) (e d rv : Int) : Entity :=
  if 0 ≤ (en.runs.getLastD defRun).end_time then
    { en with runs := en.runs ++ [Run.make (-1) e d rv] }
  else
    { en with runs := en.runs.dropLast ++ [(en.runs.getLastD defRun).close e d rv] }

/-- Source `Entity.addRun(start_time, end_time, duration, retval)`: append a fully
specified run. -/
def Entity.addRun (en : Entity) (s e d rv : Int) : Entity :=
  { en with runs := en.runs ++ [Run.make s e d rv] }

/-- Source `Probe.deferred_probe_pending`: `abs(self._runs[-1].retval) == 517`. -/
def Entity.deferred_probe_pending (en : Entity) : Bool :=
  (en.runs.getLastD defRun).retval.natAbs == ERRCODE_PROBE_DEFER

/-- Source `Probe.num_deferred_probes`: number of runs with `abs(r.retval) == 517`. -/
def Entity.num_deferred_probes (en : Entity) : Nat :=
  (en.runs.filter (fun r => r.retval.natAbs == ERRCODE_PROBE_DEFER)).length

/-- An `Initcall` is an `Entity` plus the optional kernel-module string. -/
structure Initcall extends Entity where
  module : String
deriving DecidableEq, Repr

/-- Source `Initcall.__init__(name, start_time, module)`:
`super().__init__(name, start_time)` leaves the `Entity` defaults
`end_time=0, duration=0, retval=0` for the initial run. -/
def Initcall.make (name : String) (color : Nat × Nat × Nat) (s : Int)
    (module : String) : Initcall :=
  ⟨Entity.make name color s 0 0 0, module⟩

def Initcall.addStart (ic : Initcall) (s : Int) : Initcall :=
  { ic with toEntity := ic.toEntity.addStart s }

def Initcall.addEnd (ic : Initcall) (e d rv : Int) : Initcall :=
  { ic with toEntity := ic.toEntity.addEnd e d rv }

/-- Source `Probe.__init__(name, start_time, duration, retval)`:
`super().__init__(name, start_time, start_time + duration, duration, retval)`. -/
def Probe.make (name : String) (color : Nat × Nat × Nat) (s d rv : Int) : Entity :=
  Entity.make name color s (s + d) d rv

/-- Source `Init.__init__(name, start_time)`: plain `Entity` construction. -/
def Init.make (name : String) (color : Nat × Nat × Nat) (s : Int) : Entity :=
  Entity.make name color s 0 0 0

/-! ## The event feed and the timeline engine -/

/-- Typed events produced by the parsing collaborator.  Timestamps and
durations are parsed by the `[0-9\s]+\.[0-9]+` / `[0-9]+` regexes and are
therefore nonnegative (`Nat`); return codes match `[\-0-9]+` (`Int`). -/
inductive Event where
  | versionSeen (text : String)
  | machineSeen (text : String)
  | cmdlineSeen (text : String)
  | callStarted (name : String) (time : Nat) (module : String)
  | callReturned (name : String) (time : Nat) (retval : Int) (duration : Nat)
  | probeReturned (name : String) (time : Nat) (retval : Int) (duration : Nat)
  | initStarted (name : String) (time : Nat)
deriving DecidableEq, Repr

/-- Name-keyed lookup in an insertion-ordered association list (the model of
the Python `dict`s `initcalls` and `probes`). -/
def lookupName {β : Type} (k : String) : List (String × β) → Option β
  | [] => none
  | p :: ps => if p.1 = k then some p.2 else lookupName k ps

/-- Update the value stored under key `k` in place (`initcalls[name].addEnd(...)`
etc.; insertion order is preserved, as for a Python `dict`). -/
def updateKey {β : Type} (k : String) (f : β → β) : List (String × β) → List (String × β)
  | [] => []
  | p :: ps => if p.1 = k then (p.1, f p.2) :: ps else p :: updateKey k f ps

/-- The engine's mutable state: the two insertion-ordered maps, the init
singleton, the three scalar strings, the count of entities created so far
(used to index the color source), and the stderr diagnostics. -/
structure EngineState where
  initcalls : List (String × Initcall)
  probes : List (String × Entity)
  init : Option Entity
  version : String
  machine : String
  cmdline : String
  colorCtr : Nat
  diags : List String
deriving DecidableEq, Repr

/-- State before any line is read: empty maps, no init, `'Unknown'` scalars. -/
def initialState : EngineState :=
  ⟨[], [], none, "Unknown", "Unknown", "Unknown", 0, []⟩

/-- One iteration of the ingestion loop on an already-parsed event.  The
`colorSrc` parameter models the stream of `random.randint` triples: the n-th
entity created receives `colorSrc n`. -/
def step (colorSrc : Nat → Nat × Nat × Nat) (st : EngineState) (ev : Event) : EngineState :=
  match ev with
  | .versionSeen t => { st with version := t }
  | .machineSeen t => { st with machine := t }
  | .cmdlineSeen t => { st with cmdline := t }
  | .callStarted name time module =>
    match lookupName name st.initcalls with
    | none =>
      { st with
        initcalls :=
          st.initcalls ++ [(name, Initcall.make name (colorSrc st.colorCtr) (time : Int) module)]
        colorCtr := st.colorCtr + 1 }
    | some _ =>
      { st with initcalls := updateKey name (fun ic => ic.addStart (time : Int)) st.initcalls }
  | .callReturned name time rv dur =>
    match lookupName name st.initcalls with
    | none =>
      { st with
        diags :=
          st.diags ++
            ["Detected return for initcall " ++ name ++ ", for which a call was never recorded"] }
    | some _ =>
      { st with
        initcalls := updateKey name (fun ic => ic.addEnd (time : Int) (dur : Int) rv) st.initcalls }
  | .probeReturned name time rv dur =>
    match lookupName name st.probes with
    | none =>
      { st with
        probes :=
          st.probes ++
            [(name, Probe.make name (colorSrc st.colorCtr) ((time : Int) - (dur : Int)) (dur : Int) rv)]
        colorCtr := st.colorCtr + 1 }
    | some _ =>
      { st with
        probes :=
          updateKey name
            (fun p => p.addRun ((time : Int) - (dur : Int)) (time : Int) (dur : Int) rv) st.probes }
  | .initStarted name time =>
    match st.init with
    | none =>
      { st with
        init := some (Init.make name (colorSrc st.colorCtr) (time : Int))
        colorCtr := st.colorCtr + 1 }
    | some _ => st

/-- The `if not init and init_sentinel in line` guard: the init branch (and
with it the before-init `break`) is entered only for an `initStarted` event
while the singleton is still unset. -/
def initBreak (st : EngineState) (ev : Event) : Bool :=
  match ev, st.init with
  | .initStarted _ _, none => true
  | _, _ => false

/-- The ingestion loop: consume events in order; in before-init mode, stop
right after ingesting the first `initStarted` event. -/
def ingest (colorSrc : Nat → Nat × Nat × Nat) (beforeInit : Bool) :
    EngineState → List Event → EngineState
  | st, [] => st
  | st, ev :: rest =>
    if beforeInit && initBreak st ev then step colorSrc st ev
    else ingest colorSrc beforeInit (step colorSrc st ev) rest

/-- Run the engine from the initial state over a full feed. -/
def runEngine (colorSrc : Nat → Nat × Nat × Nat) (beforeInit : Bool)
    (events : List Event) : EngineState :=
  ingest colorSrc beforeInit initialState events

/-- A constant color source, used for concrete evaluations. -/
def constColor : Nat → Nat × Nat × Nat := fun _ => (0, 0, 0)

example :
    (runEngine constColor false
      [Event.callStarted "foo" 100 "", Event.callReturned "foo" 105 0 5]).initcalls =
    [("foo", ⟨⟨"foo", (0, 0, 0), [⟨100, 0, 0, 0, true⟩, ⟨-1, 105, 5, 0, true⟩]⟩, ""⟩)] := by
  decide

/-! ## Report computations that dereference the init singleton

In the source these read `init.last_start_time` unconditionally; when no init
line was ingested, `init` is Python's `None` and the attribute access raises
`AttributeError`.  The raise is modelled as `Except.error`. -/

/-- The message of the exception Python raises on `None.last_start_time`. -/
def noneTypeError : String := "AttributeError: NoneType has no attribute"

/-- Plain-text summary: `len(list(filter(lambda d: d.last_start_time <=
init.last_start_time, initcalls.values())))`. -/
def num_before_userspace (st : EngineState) : Except String Nat :=
  match st.init with
  | none => .error noneTypeError
  | some i =>
    .ok ((st.initcalls.filter (fun p => p.2.last_start_time ≤ i.last_start_time)).length)

/-- Plain-text summary: `len(list(filter(lambda d: d.last_start_time >
init.last_start_time, initcalls.values())))`. -/
def num_after_userspace (st : EngineState) : Except String Nat :=
  match st.init with
  | none => .error noneTypeError
  | some i =>
    .ok ((st.initcalls.filter (fun p => i.last_start_time < p.2.last_start_time)).length)

/-- The `Init start time: {init.last_start_time // 1000}ms` line (both the
plain-text summary and the HTML identification table). -/
def init_start_time_ms (st : EngineState) : Except String Int :=
  match st.init with
  | none => .error noneTypeError
  | some i => .ok (Int.fdiv i.last_start_time 1000)

/-- The HTML probes-table `After init` column:
`'YES' if d.last_start_time > init.last_start_time else 'NO'`. -/
def probe_after_init (st : EngineState) (d : Entity) : Except String String :=
  match st.init with
  | none => .error noneTypeError
  | some i => .ok (if i.last_start_time < d.last_start_time then "YES" else "NO")

/-! ## Color erasure

`Entity.__init__` draws three `random.randint(0, 255)` values; two runs of the
engine differ only in the color source.  `zeroColors` forgets the colors. -/

def zeroE (en : Entity) : Entity := ⟨en.name, (0, 0, 0), en.runs⟩

def zeroIc (ic : Initcall) : Initcall := ⟨zeroE ic.toEntity, ic.module⟩

def zeroColors (st : EngineState) : EngineState :=
  { st with
    initcalls := st.initcalls.map (fun p => (p.1, zeroIc p.2))
    probes := st.probes.map (fun p => (p.1, zeroE p.2))
    init := st.init.map zeroE }

/-! ## Feed truncation at the first init event -/

/-- Whether the feed contains an `initStarted` event. -/
def hasInitEvent (events : List Event) : Bool :=
  events.any (fun ev => match ev with | .initStarted _ _ => true | _ => false)

/-- Truncate a feed immediately after its first `initStarted` event. -/
def truncAfterInit : List Event → List Event
  | [] => []
  | ev :: rest =>
    match ev with
    | .initStarted _ _ => [ev]
    | _ => ev :: truncAfterInit rest

/-! ## The probe slot assigner

Model of the bootchart loop:

    slots = {}
    for d in sorted(list(probes.values()), key=lambda k: k.first_start_time):
        for i,r in enumerate(d.runs):
            ypos = 0
            while len(list(filter(lambda j: j.running_at(r.start_time)
                                  and slots.get(j.name, -1) == ypos,
                                  probes.values()))) != 0:
                ypos = ypos + 1
            slots[d.name] = ypos

The `slots` dict is modelled as a function `String → Option Nat`
(`slots.get(name, -1)` returns `-1`, which never equals a candidate
`ypos ≥ 0`, exactly when the model returns `none`). -/

def Slots : Type := String → Option Nat

def setSlot (slots : Slots) (n : String) (y : Nat) : Slots :=
  fun m => if m = n then some y else slots m

/-- The `while` condition: some probe `j` is running at instant `s` and is
currently assigned lane `L`. -/
def hasConflict (probes : List Entity) (slots : Slots) (s : Int) (L : Nat) : Bool :=
  probes.any (fun j => j.running_at s && (slots j.name == some L))

/-- Lanes currently assigned to some probe. -/
def usedLanes (probes : List Entity) (slots : Slots) : List Nat :=
  probes.filterMap (fun j => slots j.name)

/-- Linear search for the first conflict-free lane at or above `y`; `fuel`
bounds the search (the source's `while` loop needs no bound because some lane
is always free). -/
def findSlotFrom (probes : List Entity) (slots : Slots) (s : Int) :
    Nat → Nat → Nat
  | 0, y => y
  | fuel + 1, y =>
    if hasConflict probes slots s y then findSlotFrom probes slots s fuel (y + 1) else y

/-- One more than the largest lane in use: every lane from here up is free,
so this much fuel always suffices for the search to terminate on a
conflict-free lane. -/
def slotBound (probes : List Entity) (slots : Slots) : Nat :=
  (usedLanes probes slots).foldr max 0 + 1

/-- Search `ypos = 0; while conflict: ypos += 1` — the first conflict-free lane. -/
def findSlot (probes : List Entity) (slots : Slots) (s : Int) : Nat :=
  findSlotFrom probes slots s (slotBound probes slots) 0

/-- The inner `for i,r in enumerate(d.runs)` loop: each run overwrites
`slots[d.name]` with the lane found at its own start time. -/
def assignEntityRuns (probes : List Entity) (d : Entity) (slots : Slots) :
    List Run → Slots
  | [] => slots
  | r :: rs =>
    assignEntityRuns probes d (setSlot slots d.name (findSlot probes slots r.start_time)) rs

/-- The outer loop over entities in processing order. -/
def assignAll (probes : List Entity) (slots : Slots) : List Entity → Slots
  | [] => slots
  | d :: ds => assignAll probes (assignEntityRuns probes d slots d.runs) ds

/-- Stable insertion into a list ascending by `first_start_time`. -/
def insertByStart (d : Entity) : List Entity → List Entity
  | [] => [d]
  | x :: xs =>
    if d.first_start_time ≤ x.first_start_time then d :: x :: xs
    else x :: insertByStart d xs

/-- Stable ascending sort by `first_start_time`, the model of
`sorted(list(probes.values()), key=lambda k: k.first_start_time)`
(Python's `sorted` is stable). -/
def sortByStart : List Entity → List Entity
  | [] => []
  | x :: xs => insertByStart x (sortByStart xs)

/-- The whole slot-assignment pass over a probe collection (given in the
probes map's insertion order). -/
def assignSlots (probes : List Entity) : Slots :=
  assignAll probes (fun _ => none) (sortByStart probes)

/-! ## Helper lemmas about the association-list maps -/

theorem lookupName_append_self {β : Type} (k : String) (v : β) :
    ∀ l : List (String × β), lookupName k l = none →
      lookupName k (l ++ [(k, v)]) = some v := by
  intro l
  induction l with
  | nil => intro _; simp [lookupName]
  | cons p ps ih =>
    intro h
    by_cases hp : p.1 = k
    · simp [lookupName, hp] at h
    · simp only [lookupName, hp, if_false, List.cons_append] at *
      exact ih h

/-! ## Concrete feeds used for evaluations -/

/-- Scenario A's feed: `CallStarted("foo", 100)`, `CallReturned("foo", 105, 0, 5)`. -/
def feedA : List Event :=
  [Event.callStarted "foo" 100 "", Event.callReturned "foo" 105 0 5]

/-- The Initcall the engine actually produces from `feedA`. -/
def icFoo : Initcall :=
  ⟨⟨"foo", (0, 0, 0), [⟨100, 0, 0, 0, true⟩, ⟨-1, 105, 5, 0, true⟩]⟩, ""⟩

/-! ## Claim theorems -/

/-- C1: the claim expects `CallStarted("foo",100); CallReturned("foo",105,0,5)`
to leave exactly one closed Run.  Evaluating the engine at that feed instead
yields TWO closed Runs — the constructor's `end_time = 0` default closes the
initial Run immediately, so the return appends a second Run with
`start_time = -1` — while the claimed duration 5, `has_failed = false` and
`is_running = false` do hold. -/
theorem c1_feedA_yields_two_closed_runs :
    lookupName "foo" (runEngine constColor false feedA).initcalls = some icFoo ∧
    icFoo.toEntity.runs.length = 2 ∧
    (icFoo.toEntity.runs.filter (fun r => r.ended)).length = 2 ∧
    icFoo.toEntity.duration = 5 ∧
    icFoo.toEntity.failed = false ∧
    icFoo.toEntity.running = false := by
  decide

/-- C2: an Initcall created by a `CallStarted` event has its single initial
Run built with `end_time = 0` (not the `-1` sentinel), hence already ended:
before any return the entity reports `is_running = false` and
`last_end_time = 0`, and the first `CallReturned` appends a second Run with
`start_time = -1` instead of closing the initial Run in place. -/
theorem c2_initial_run_already_ended (cs : Nat → Nat × Nat × Nat) (st : EngineState)
    (n : String) (t : Nat) (m : String)
    (habs : lookupName n st.initcalls = none) :
    lookupName n ((step cs st (.callStarted n t m)).initcalls) =
      some (Initcall.make n (cs st.colorCtr) (t : Int) m) ∧
    ∀ (col : Nat × Nat × Nat) (s e d rv : Int),
      (Initcall.make n col s m).toEntity.runs = [Run.make s 0 0 0] ∧
      (Run.make s 0 0 0).end_time = 0 ∧
      (Run.make s 0 0 0).ended = true ∧
      (Initcall.make n col s m).toEntity.running = false ∧
      (Initcall.make n col s m).toEntity.last_end_time = 0 ∧
      ((Initcall.make n col s m).addEnd e d rv).toEntity.runs =
        [Run.make s 0 0 0, Run.make (-1) e d rv] ∧
      ((Initcall.make n col s m).addEnd e d rv).toEntity.runs.length = 2 ∧
      (((Initcall.make n col s m).addEnd e d rv).toEntity.runs.getLastD defRun).start_time
        = -1 := by
  constructor
  · simp only [step, habs]
    exact lookupName_append_self n _ st.initcalls habs
  · intro col s e d rv
    refine ⟨rfl, rfl, rfl, rfl, rfl, ?_, ?_, ?_⟩ <;>
      simp [Initcall.addEnd, Entity.addEnd, Initcall.make, Entity.make, Run.make, Run.close,
        defRun]

/-- C2 witness: the theorem applied to a fresh name in the initial state. -/
theorem c2_initial_run_already_ended_witness :
    lookupName "foo" initialState.initcalls = none ∧
    lookupName "foo" ((step constColor initialState (.callStarted "foo" 100 "")).initcalls) =
      some (Initcall.make "foo" (constColor 0) (100 : Int) "") := by
  exact ⟨rfl, (c2_initial_run_already_ended constColor initialState "foo" 100 "" rfl).1⟩

/-- C5: `addEnd` on an entity whose latest Run is open (negative `end_time`
sentinel) closes it in place with the given fields, keeping the sequence
length; on an entity whose latest Run is closed it appends one new closed Run
with `start_time = -1`. -/
theorem c5_addEnd_close_or_append (en : Entity) (t d rv : Int)
    (hne : en.runs ≠ []) (ht : 0 ≤ t) :
    ((en.runs.getLastD defRun).end_time < 0 →
      (en.addEnd t d rv).runs.length = en.runs.length ∧
      (en.addEnd t d rv).runs =
        en.runs.dropLast ++ [Run.close (en.runs.getLastD defRun) t d rv] ∧
      ((en.addEnd t d rv).runs.getLastD defRun).start_time
        = (en.runs.getLastD defRun).start_time ∧
      ((en.addEnd t d rv).runs.getLastD defRun).end_time = t ∧
      ((en.addEnd t d rv).runs.getLastD defRun).duration = d ∧
      ((en.addEnd t d rv).runs.getLastD defRun).retval = rv ∧
      ((en.addEnd t d rv).runs.getLastD defRun).ended = true) ∧
    (0 ≤ (en.runs.getLastD defRun).end_time →
      (en.addEnd t d rv).runs.length = en.runs.length + 1 ∧
      (en.addEnd t d rv).runs = en.runs ++ [Run.make (-1) t d rv] ∧
      (Run.make (-1) t d rv).start_time = -1 ∧
      (Run.make (-1) t d rv).ended = true) := by
  have hlen : 0 < en.runs.length := List.length_pos.mpr hne
  constructor
  · intro hopen
    have hcond : ¬ (0 ≤ (en.runs.getLastD defRun).end_time) := by omega
    simp only [Entity.addEnd, if_neg hcond]
    have hlast :
        ((en.runs.dropLast ++ [Run.close (en.runs.getLastD defRun) t d rv]).getLastD defRun)
          = Run.close (en.runs.getLastD defRun) t d rv := List.getLastD_concat _ _ _
    refine ⟨?_, by trivial, ?_, ?_, ?_, ?_, ?_⟩
    · simp only [List.length_append, List.length_dropLast, List.length_cons,
        List.length_nil]
      omega
    · show ((en.runs.dropLast ++ [_]).getLastD defRun).start_time = _
      rw [hlast]; rfl
    · show ((en.runs.dropLast ++ [_]).getLastD defRun).end_time = t
      rw [hlast]; rfl
    · show ((en.runs.dropLast ++ [_]).getLastD defRun).duration = d
      rw [hlast]; rfl
    · show ((en.runs.dropLast ++ [_]).getLastD defRun).retval = rv
      rw [hlast]; rfl
    · show ((en.runs.dropLast ++ [_]).getLastD defRun).ended = true
      rw [hlast]; rfl
  · intro hclosed
    simp only [Entity.addEnd, if_pos hclosed]
    refine ⟨by simp, by trivial, by trivial, ?_⟩
    show decide (0 ≤ t) = true
    exact decide_eq_true ht

/-- C5 witness: the theorem applied to a concrete entity whose latest Run is
open (`end_time = -1`), closed in place by `addEnd 7 2 0`. -/
theorem c5_addEnd_close_or_append_witness :
    (Entity.make "x" (0, 0, 0) 3 (-1) 0 0).runs ≠ [] ∧ (0 : Int) ≤ 7 ∧
    ((Entity.make "x" (0, 0, 0) 3 (-1) 0 0).addEnd 7 2 0).runs.length =
      (Entity.make "x" (0, 0, 0) 3 (-1) 0 0).runs.length := by
  refine ⟨by decide, by decide, ?_⟩
  exact ((c5_addEnd_close_or_append (Entity.make "x" (0, 0, 0) 3 (-1) 0 0) 7 2 0
    (by decide) (by decide)).1 (by decide)).1

/-- C8: deferred-probe detection is sign-insensitive.  A Run whose retval is
517 or -517 is `running` whatever its `ended` flag; an Entity whose latest
Run carries either value has `deferred_probe_pending = true` (and counts as
running); and `num_deferred_probes` counts a run with either value. -/
theorem c8_sign_insensitive_deferred :
    (∀ (s e d : Int) (b : Bool),
      Run.running ⟨s, e, d, 517, b⟩ = true ∧ Run.running ⟨s, e, d, -517, b⟩ = true) ∧
    (∀ en : Entity,
      ((en.runs.getLastD defRun).retval = 517 ∨ (en.runs.getLastD defRun).retval = -517) →
      en.deferred_probe_pending = true ∧ en.running = true) ∧
    (∀ (n : String) (c : Nat × Nat × Nat) (pre post : List Run) (s e d : Int) (b : Bool),
      Entity.num_deferred_probes ⟨n, c, pre ++ ⟨s, e, d, 517, b⟩ :: post⟩ =
        Entity.num_deferred_probes ⟨n, c, pre ++ post⟩ + 1 ∧
      Entity.num_deferred_probes ⟨n, c, pre ++ ⟨s, e, d, -517, b⟩ :: post⟩ =
        Entity.num_deferred_probes ⟨n, c, pre ++ post⟩ + 1) := by
  refine ⟨?_, ?_, ?_⟩
  · intro s e d b
    constructor <;> simp [Run.running, ERRCODE_PROBE_DEFER]
  · intro en h
    have habs : (en.runs.getLastD defRun).retval.natAbs = 517 := by
      rcases h with h | h <;> rw [h] <;> decide
    simp only [List.getLastD_eq_getLast?] at habs
    constructor
    · show ((en.runs.getLastD defRun).retval.natAbs == ERRCODE_PROBE_DEFER) = true
      simp [habs, ERRCODE_PROBE_DEFER]
    · show Run.running (en.runs.getLastD defRun) = true
      simp [Run.running, habs, ERRCODE_PROBE_DEFER]
  · intro n c pre post s e d b
    constructor <;>
      · simp only [Entity.num_deferred_probes, List.filter_append, List.filter_cons,
          List.length_append]
        norm_num [ERRCODE_PROBE_DEFER]
        omega

/-- C8 witness: the entity-level part of the theorem applied to concrete
entities whose latest run returned 517 and -517 respectively. -/
theorem c8_sign_insensitive_deferred_witness :
    (Entity.make "p" (0, 0, 0) 0 10 1 517).deferred_probe_pending = true ∧
    (Entity.make "q" (0, 0, 0) 0 10 1 (-517)).deferred_probe_pending = true := by
  exact ⟨(c8_sign_insensitive_deferred.2.1 (Entity.make "p" (0, 0, 0) 0 10 1 517)
      (Or.inl (by decide))).1,
    (c8_sign_insensitive_deferred.2.1 (Entity.make "q" (0, 0, 0) 0 10 1 (-517))
      (Or.inr (by decide))).1⟩

/-- C10: a `CallReturned` whose name is absent from the initcalls map appends
one diagnostic and changes nothing else; the name stays absent, the probes
map, the init singleton and the scalars are untouched, and ingestion proceeds
to the next event. -/
theorem c10_unmatched_return_dropped (cs : Nat → Nat × Nat × Nat) (b : Bool)
    (st : EngineState) (n : String) (t : Nat) (rv : Int) (d : Nat) (rest : List Event)
    (habs : lookupName n st.initcalls = none) :
    (step cs st (.callReturned n t rv d)).initcalls = st.initcalls ∧
    lookupName n (step cs st (.callReturned n t rv d)).initcalls = none ∧
    (step cs st (.callReturned n t rv d)).probes = st.probes ∧
    (step cs st (.callReturned n t rv d)).init = st.init ∧
    (step cs st (.callReturned n t rv d)).version = st.version ∧
    (step cs st (.callReturned n t rv d)).machine = st.machine ∧
    (step cs st (.callReturned n t rv d)).cmdline = st.cmdline ∧
    (step cs st (.callReturned n t rv d)).diags =
      st.diags ++
        ["Detected return for initcall " ++ n ++ ", for which a call was never recorded"] ∧
    ingest cs b st (.callReturned n t rv d :: rest) =
      ingest cs b (step cs st (.callReturned n t rv d)) rest := by
  refine ⟨?_, ?_, ?_, ?_, ?_, ?_, ?_, ?_, ?_⟩ <;>
    simp [step, habs, ingest, initBreak]

/-- C10 witness: the theorem applied to `CallReturned("baz", 10, 0, 1)` in the
initial state. -/
theorem c10_unmatched_return_dropped_witness :
    lookupName "baz" initialState.initcalls = none ∧
    (step constColor initialState (.callReturned "baz" 10 0 1)).initcalls =
      initialState.initcalls := by
  exact ⟨rfl,
    (c10_unmatched_return_dropped constColor false initialState "baz" 10 0 1 [] rfl).1⟩

/-- C4 counterexample: a feed with one initcall and no init marker produces a
state on which the init-relative computations evaluate to an error (the
modelled `AttributeError` of `None.last_start_time`), not to a skipped/ok
result — refuting the claim that they "conditionally skip rather than fail". -/
theorem c4_counterexample_missing_init_fails :
    (runEngine constColor false feedA).init = none ∧
    (runEngine constColor false feedA).initcalls ≠ [] ∧
    num_before_userspace (runEngine constColor false feedA) = .error noneTypeError ∧
    num_after_userspace (runEngine constColor false feedA) = .error noneTypeError ∧
    init_start_time_ms (runEngine constColor false feedA) = .error noneTypeError ∧
    probe_after_init (runEngine constColor false feedA) (Entity.make "p" (0, 0, 0) 0 0 0 0) =
      .error noneTypeError := by
  exact ⟨rfl, by decide, rfl, rfl, rfl, rfl⟩

/-- C4 amended: when no `InitStarted` event was ingested, every computation
keyed on time relative to init fails with the modelled `AttributeError`
(rather than conditionally skipping): the before/after-userspace counts, the
init-start-time line, and the probes-table after-init column. -/
theorem c4_amended_missing_init_errors (st : EngineState) (h : st.init = none) :
    num_before_userspace st = .error noneTypeError ∧
    num_after_userspace st = .error noneTypeError ∧
    init_start_time_ms st = .error noneTypeError ∧
    ∀ d : Entity, probe_after_init st d = .error noneTypeError := by
  refine ⟨?_, ?_, ?_, fun d => ?_⟩ <;>
    simp [num_before_userspace, num_after_userspace, init_start_time_ms, probe_after_init, h]

/-- C4 witness: the amended theorem applied to the init-less state built from
`feedA`. -/
theorem c4_amended_missing_init_errors_witness :
    (runEngine constColor false feedA).init = none ∧
    num_before_userspace (runEngine constColor false feedA) = .error noneTypeError := by
  exact ⟨rfl, (c4_amended_missing_init_errors (runEngine constColor false feedA) rfl).1⟩

/-! ## Before-init truncation (C6) -/

/-- Processing any event other than a first `initStarted` leaves the init
singleton unset. -/
theorem step_init_none (cs : Nat → Nat × Nat × Nat) (st : EngineState) (ev : Event)
    (h : st.init = none) (hne : initBreak st ev = false) :
    (step cs st ev).init = none := by
  cases ev with
  | initStarted n t => simp [initBreak, h] at hne
  | callStarted n t m => cases hl : lookupName n st.initcalls <;> simp [step, hl, h]
  | callReturned n t rv d => cases hl : lookupName n st.initcalls <;> simp [step, hl, h]
  | probeReturned n t rv d => cases hl : lookupName n st.probes <;> simp [step, hl, h]
  | versionSeen s => simpa [step] using h
  | machineSeen s => simpa [step] using h
  | cmdlineSeen s => simpa [step] using h

/-- Ingesting in before-init mode from an init-less state equals ingesting
the feed truncated right after its first `initStarted` event. -/
theorem ingest_beforeInit_eq_trunc (cs : Nat → Nat × Nat × Nat) :
    ∀ (evs : List Event) (st : EngineState), st.init = none →
      ingest cs true st evs = ingest cs false st (truncAfterInit evs)
  | [], _, _ => rfl
  | ev :: rest, st, h => by
    cases ev with
    | initStarted n t => simp [ingest, truncAfterInit, initBreak, h]
    | versionSeen s =>
      have hb : initBreak st (.versionSeen s) = false := rfl
      simp only [ingest, truncAfterInit, hb, Bool.and_false, if_false]
      exact ingest_beforeInit_eq_trunc cs rest _ (step_init_none cs st _ h hb)
    | machineSeen s =>
      have hb : initBreak st (.machineSeen s) = false := rfl
      simp only [ingest, truncAfterInit, hb, Bool.and_false, if_false]
      exact ingest_beforeInit_eq_trunc cs rest _ (step_init_none cs st _ h hb)
    | cmdlineSeen s =>
      have hb : initBreak st (.cmdlineSeen s) = false := rfl
      simp only [ingest, truncAfterInit, hb, Bool.and_false, if_false]
      exact ingest_beforeInit_eq_trunc cs rest _ (step_init_none cs st _ h hb)
    | callStarted n t m =>
      have hb : initBreak st (.callStarted n t m) = false := rfl
      simp only [ingest, truncAfterInit, hb, Bool.and_false, if_false]
      exact ingest_beforeInit_eq_trunc cs rest _ (step_init_none cs st _ h hb)
    | callReturned n t rv d =>
      have hb : initBreak st (.callReturned n t rv d) = false := rfl
      simp only [ingest, truncAfterInit, hb, Bool.and_false, if_false]
      exact ingest_beforeInit_eq_trunc cs rest _ (step_init_none cs st _ h hb)
    | probeReturned n t rv d =>
      have hb : initBreak st (.probeReturned n t rv d) = false := rfl
      simp only [ingest, truncAfterInit, hb, Bool.and_false, if_false]
      exact ingest_beforeInit_eq_trunc cs rest _ (step_init_none cs st _ h hb)

/-- If the feed holds an `initStarted` event, the before-init run ends with
the singleton set: the break fires only after ingesting that event. -/
theorem ingest_beforeInit_init_isSome (cs : Nat → Nat × Nat × Nat) :
    ∀ (evs : List Event) (st : EngineState), st.init = none → hasInitEvent evs = true →
      (ingest cs true st evs).init.isSome = true
  | [], _, _, hfeed => by simp [hasInitEvent] at hfeed
  | ev :: rest, st, h, hfeed => by
    cases ev with
    | initStarted n t => simp [ingest, initBreak, h, step]
    | versionSeen s =>
      have hb : initBreak st (.versionSeen s) = false := rfl
      simp only [ingest, hb, Bool.and_false, if_false]
      refine ingest_beforeInit_init_isSome cs rest _ (step_init_none cs st _ h hb) ?_
      simpa [hasInitEvent] using hfeed
    | machineSeen s =>
      have hb : initBreak st (.machineSeen s) = false := rfl
      simp only [ingest, hb, Bool.and_false, if_false]
      refine ingest_beforeInit_init_isSome cs rest _ (step_init_none cs st _ h hb) ?_
      simpa [hasInitEvent] using hfeed
    | cmdlineSeen s =>
      have hb : initBreak st (.cmdlineSeen s) = false := rfl
      simp only [ingest, hb, Bool.and_false, if_false]
      refine ingest_beforeInit_init_isSome cs rest _ (step_init_none cs st _ h hb) ?_
      simpa [hasInitEvent] using hfeed
    | callStarted n t m =>
      have hb : initBreak st (.callStarted n t m) = false := rfl
      simp only [ingest, hb, Bool.and_false, if_false]
      refine ingest_beforeInit_init_isSome cs rest _ (step_init_none cs st _ h hb) ?_
      simpa [hasInitEvent] using hfeed
    | callReturned n t rv d =>
      have hb : initBreak st (.callReturned n t rv d) = false := rfl
      simp only [ingest, hb, Bool.and_false, if_false]
      refine ingest_beforeInit_init_isSome cs rest _ (step_init_none cs st _ h hb) ?_
      simpa [hasInitEvent] using hfeed
    | probeReturned n t rv d =>
      have hb : initBreak st (.probeReturned n t rv d) = false := rfl
      simp only [ingest, hb, Bool.and_false, if_false]
      refine ingest_beforeInit_init_isSome cs rest _ (step_init_none cs st _ h hb) ?_
      simpa [hasInitEvent] using hfeed

/-- C6: on a feed containing an `InitStarted` event, before-init mode yields
the same final engine state as the full-feed run over the feed truncated
immediately after that first `InitStarted` event, and the `InitStarted`
event itself is still ingested (the singleton ends up set). -/
theorem c6_before_init_equals_truncation (cs : Nat → Nat × Nat × Nat)
    (evs : List Event) (h : hasInitEvent evs = true) :
    runEngine cs true evs = runEngine cs false (truncAfterInit evs) ∧
    (runEngine cs true evs).init.isSome = true :=
  ⟨ingest_beforeInit_eq_trunc cs evs initialState rfl,
    ingest_beforeInit_init_isSome cs evs initialState rfl h⟩

/-- A feed with events after the init marker. -/
def feedB : List Event :=
  [Event.callStarted "foo" 100 "", Event.initStarted "init" 200,
   Event.callStarted "bar" 300 "", Event.probeReturned "p" 400 0 50]

/-- C6 witness: the theorem applied to `feedB`. -/
theorem c6_before_init_equals_truncation_witness :
    hasInitEvent feedB = true ∧
    runEngine constColor true feedB = runEngine constColor false (truncAfterInit feedB) :=
  ⟨by decide, (c6_before_init_equals_truncation constColor feedB (by decide)).1⟩

/-! ## Color erasure commutes with the engine (C9) -/

theorem lookupName_map {β γ : Type} (k : String) (f : β → γ) :
    ∀ l : List (String × β),
      lookupName k (l.map (fun p => (p.1, f p.2))) = (lookupName k l).map f
  | [] => rfl
  | p :: ps => by
    by_cases hp : p.1 = k <;> simp [lookupName, hp, lookupName_map k f ps]

theorem updateKey_map {β γ : Type} (k : String) (g : β → β) (f : β → γ) (g2 : γ → γ)
    (hcomm : ∀ b, f (g b) = g2 (f b)) :
    ∀ l : List (String × β),
      (updateKey k g l).map (fun p => (p.1, f p.2)) =
        updateKey k g2 (l.map (fun p => (p.1, f p.2)))
  | [] => rfl
  | p :: ps => by
    by_cases hp : p.1 = k <;>
      simp [updateKey, hp, hcomm, updateKey_map k g f g2 hcomm ps]

theorem zeroE_addStart (en : Entity) (s : Int) :
    zeroE (en.addStart s) = (zeroE en).addStart s := rfl

theorem zeroE_addEnd (en : Entity) (e d rv : Int) :
    zeroE (en.addEnd e d rv) = (zeroE en).addEnd e d rv := by
  simp only [Entity.addEnd, zeroE]
  split <;> rfl

theorem zeroE_addRun (en : Entity) (s e d rv : Int) :
    zeroE (en.addRun s e d rv) = (zeroE en).addRun s e d rv := rfl

theorem zeroIc_addStart (ic : Initcall) (s : Int) :
    zeroIc (ic.addStart s) = (zeroIc ic).addStart s := rfl

theorem zeroIc_addEnd (ic : Initcall) (e d rv : Int) :
    zeroIc (ic.addEnd e d rv) = (zeroIc ic).addEnd e d rv := by
  simp only [Initcall.addEnd, zeroIc, zeroE_addEnd]

theorem zeroIc_make (n : String) (col : Nat × Nat × Nat) (s : Int) (m : String) :
    zeroIc (Initcall.make n col s m) = Initcall.make n (0, 0, 0) s m := rfl

theorem zeroE_probe_make (n : String) (col : Nat × Nat × Nat) (s d rv : Int) :
    zeroE (Probe.make n col s d rv) = Probe.make n (0, 0, 0) s d rv := rfl

theorem zeroE_init_make (n : String) (col : Nat × Nat × Nat) (s : Int) :
    zeroE (Init.make n col s) = Init.make n (0, 0, 0) s := rfl

/-- One engine step with colors erased afterwards equals the step taken with
the constant color source from the erased state. -/
theorem zeroColors_step (cs : Nat → Nat × Nat × Nat) (st : EngineState) (ev : Event) :
    zeroColors (step cs st ev) = step constColor (zeroColors st) ev := by
  obtain ⟨ics, prs, ini, v, mc, cl, ctr, dg⟩ := st
  cases ev with
  | versionSeen s => rfl
  | machineSeen s => rfl
  | cmdlineSeen s => rfl
  | callStarted n t m =>
    cases hl : lookupName n ics with
    | none =>
      simp only [step, zeroColors, lookupName_map, hl, Option.map_none', List.map_append,
        List.map_cons, List.map_nil, zeroIc_make, constColor]
    | some ic =>
      simp [step, zeroColors, hl, lookupName_map,
        updateKey_map n (fun ic => ic.addStart (t : Int)) zeroIc
          (fun ic => ic.addStart (t : Int)) (fun ic => zeroIc_addStart ic (t : Int)) ics]
  | callReturned n t rv d =>
    cases hl : lookupName n ics with
    | none => simp [step, zeroColors, hl, lookupName_map]
    | some ic =>
      simp [step, zeroColors, hl, lookupName_map,
        updateKey_map n (fun ic => ic.addEnd (t : Int) (d : Int) rv) zeroIc
          (fun ic => ic.addEnd (t : Int) (d : Int) rv)
          (fun ic => zeroIc_addEnd ic (t : Int) (d : Int) rv) ics]
  | probeReturned n t rv d =>
    cases hl : lookupName n prs with
    | none =>
      simp only [step, zeroColors, lookupName_map, hl, Option.map_none', List.map_append,
        List.map_cons, List.map_nil, zeroE_probe_make, constColor]
    | some pe =>
      simp [step, zeroColors, hl, lookupName_map,
        updateKey_map n (fun p => p.addRun ((t : Int) - (d : Int)) (t : Int) (d : Int) rv)
          zeroE (fun p => p.addRun ((t : Int) - (d : Int)) (t : Int) (d : Int) rv)
          (fun p => zeroE_addRun p ((t : Int) - (d : Int)) (t : Int) (d : Int) rv) prs]
  | initStarted n t =>
    cases ini with
    | none => rfl
    | some i => rfl

/-- The before-init break condition ignores colors. -/
theorem initBreak_zeroColors (st : EngineState) (ev : Event) :
    initBreak (zeroColors st) ev = initBreak st ev := by
  cases ev <;> cases hi : st.init <;> simp [initBreak, zeroColors, hi]

theorem zeroColors_ingest (cs : Nat → Nat × Nat × Nat) (b : Bool) :
    ∀ (evs : List Event) (st : EngineState),
      zeroColors (ingest cs b st evs) = ingest constColor b (zeroColors st) evs
  | [], st => rfl
  | ev :: rest, st => by
    simp only [ingest, initBreak_zeroColors]
    cases hb : b && initBreak st ev with
    | true => rw [if_pos rfl, if_pos rfl, zeroColors_step]
    | false =>
      rw [if_neg (by simp), if_neg (by simp),
        zeroColors_ingest cs b rest (step cs st ev), zeroColors_step]

/-- C9: two runs of the engine on the same ordered feed agree on every field
except the random color tag (their color-erased final states are equal), and
no computed statistic of an Entity reads the color tag. -/
theorem c9_rerun_differs_only_in_colors (cs1 cs2 : Nat → Nat × Nat × Nat) (b : Bool)
    (evs : List Event) :
    zeroColors (runEngine cs1 b evs) = zeroColors (runEngine cs2 b evs) ∧
    (∀ (en : Entity) (col : Nat × Nat × Nat) (t : Int),
      Entity.duration ⟨en.name, col, en.runs⟩ = en.duration ∧
      Entity.wasted_time ⟨en.name, col, en.runs⟩ = en.wasted_time ∧
      Entity.retval ⟨en.name, col, en.runs⟩ = en.retval ∧
      Entity.failed ⟨en.name, col, en.runs⟩ = en.failed ∧
      Entity.running ⟨en.name, col, en.runs⟩ = en.running ∧
      Entity.running_at ⟨en.name, col, en.runs⟩ t = en.running_at t ∧
      Entity.first_start_time ⟨en.name, col, en.runs⟩ = en.first_start_time ∧
      Entity.last_start_time ⟨en.name, col, en.runs⟩ = en.last_start_time ∧
      Entity.first_end_time ⟨en.name, col, en.runs⟩ = en.first_end_time ∧
      Entity.last_end_time ⟨en.name, col, en.runs⟩ = en.last_end_time ∧
      Entity.deferred_probe_pending ⟨en.name, col, en.runs⟩ = en.deferred_probe_pending ∧
      Entity.num_deferred_probes ⟨en.name, col, en.runs⟩ = en.num_deferred_probes) := by
  constructor
  · rw [runEngine, runEngine, zeroColors_ingest, zeroColors_ingest]
  · intro en col t
    exact ⟨rfl, rfl, rfl, rfl, rfl, rfl, rfl, rfl, rfl, rfl, rfl, rfl⟩

/-! ## Nonnegative durations and `wasted_time ≤ duration` (C7) -/

/-- Every run of the entity has nonnegative duration (true of every entity
the engine builds, since log durations are parsed by `[0-9]+`). -/
def GoodEntity (en : Entity) : Prop := ∀ r ∈ en.runs, 0 ≤ r.duration

/-- All entities reachable in the state have nonnegative run durations. -/
def GoodState (st : EngineState) : Prop :=
  (∀ p ∈ st.initcalls, GoodEntity (Initcall.toEntity p.2)) ∧
  (∀ p ∈ st.probes, GoodEntity p.2) ∧
  (∀ i : Entity, st.init = some i → GoodEntity i)

theorem sum_filter_le_sum (φ : Run → Bool) :
    ∀ l : List Run, (∀ r ∈ l, 0 ≤ r.duration) →
      ((l.filter φ).map Run.duration).sum ≤ (l.map Run.duration).sum
  | [], _ => le_refl 0
  | r :: t, h => by
    have ht := sum_filter_le_sum φ t (fun x hx => h x (List.mem_cons_of_mem r hx))
    have hr := h r (List.mem_cons_self r t)
    cases hφ : φ r with
    | true =>
      simp only [List.filter_cons, hφ, if_true, List.map_cons, List.sum_cons]
      exact add_le_add_left ht _
    | false =>
      simp only [List.filter_cons, hφ, List.map_cons, List.sum_cons]
      calc ((List.filter φ t).map Run.duration).sum ≤ (t.map Run.duration).sum := ht
        _ ≤ r.duration + (t.map Run.duration).sum := le_add_of_nonneg_left hr

theorem goodEntity_wasted_le (en : Entity) (h : GoodEntity en) :
    en.wasted_time ≤ en.duration :=
  sum_filter_le_sum _ en.runs h

theorem goodEntity_make (n : String) (c : Nat × Nat × Nat) (s e d rv : Int)
    (hd : 0 ≤ d) : GoodEntity (Entity.make n c s e d rv) := by
  intro r hr
  simp only [Entity.make, List.mem_singleton] at hr
  subst hr
  exact hd

theorem goodEntity_addStart (en : Entity) (s : Int) (h : GoodEntity en) :
    GoodEntity (en.addStart s) := by
  intro r hr
  rcases List.mem_append.mp hr with h1 | h2
  · exact h r h1
  · simp only [List.mem_singleton] at h2
    subst h2
    exact le_refl 0

theorem goodEntity_addEnd (en : Entity) (e d rv : Int) (hd : 0 ≤ d)
    (h : GoodEntity en) : GoodEntity (en.addEnd e d rv) := by
  intro r hr
  simp only [Entity.addEnd] at hr
  split at hr
  · rcases List.mem_append.mp hr with h1 | h2
    · exact h r h1
    · simp only [List.mem_singleton] at h2
      subst h2
      exact hd
  · rcases List.mem_append.mp hr with h1 | h2
    · exact h r (List.dropLast_subset en.runs h1)
    · simp only [List.mem_singleton] at h2
      subst h2
      exact hd

theorem goodEntity_addRun (en : Entity) (s e d rv : Int) (hd : 0 ≤ d)
    (h : GoodEntity en) : GoodEntity (en.addRun s e d rv) := by
  intro r hr
  rcases List.mem_append.mp hr with h1 | h2
  · exact h r h1
  · simp only [List.mem_singleton] at h2
    subst h2
    exact hd

theorem updateKey_forall {β : Type} (P : β → Prop) (k : String) (f : β → β)
    (hf : ∀ b, P b → P (f b)) :
    ∀ l : List (String × β), (∀ p ∈ l, P p.2) → ∀ p ∈ updateKey k f l, P p.2
  | [], _, p, hp => by simp [updateKey] at hp
  | q :: t, h, p, hp => by
    simp only [updateKey] at hp
    split at hp
    · rcases List.mem_cons.mp hp with h1 | h2
      · subst h1
        exact hf _ (h q (List.mem_cons_self q t))
      · exact h p (List.mem_cons_of_mem q h2)
    · rcases List.mem_cons.mp hp with h1 | h2
      · subst h1
        exact h p (List.mem_cons_self p t)
      · exact updateKey_forall P k f hf t
          (fun x hx => h x (List.mem_cons_of_mem q hx)) p h2

theorem mem_of_lookupName {β : Type} (k : String) (v : β) :
    ∀ l : List (String × β), lookupName k l = some v → (k, v) ∈ l
  | [], h => by simp [lookupName] at h
  | p :: t, h => by
    simp only [lookupName] at h
    split at h
    · rename_i hp
      obtain rfl : p.2 = v := Option.some.inj h
      have : p = (k, p.2) := by
        obtain ⟨p1, p2⟩ := p
        simp only at hp
        subst hp
        rfl
      rw [← this]
      exact List.mem_cons_self p t
    · exact List.mem_cons_of_mem p (mem_of_lookupName k v t h)

theorem goodState_step (cs : Nat → Nat × Nat × Nat) (st : EngineState) (ev : Event)
    (h : GoodState st) : GoodState (step cs st ev) := by
  obtain ⟨h1, h2, h3⟩ := h
  cases ev with
  | versionSeen s => exact ⟨h1, h2, h3⟩
  | machineSeen s => exact ⟨h1, h2, h3⟩
  | cmdlineSeen s => exact ⟨h1, h2, h3⟩
  | callStarted n t m =>
    cases hl : lookupName n st.initcalls with
    | none =>
      simp only [GoodState, step, hl]
      refine ⟨?_, h2, h3⟩
      intro p hp
      rcases List.mem_append.mp hp with hin | hnew
      · exact h1 p hin
      · simp only [List.mem_singleton] at hnew
        subst hnew
        exact goodEntity_make _ _ _ _ _ _ (le_refl 0)
    | some ic =>
      simp only [GoodState, step, hl]
      refine ⟨?_, h2, h3⟩
      intro p hp
      exact updateKey_forall (fun ic => GoodEntity (Initcall.toEntity ic)) n _
        (fun b hb => goodEntity_addStart _ _ hb) st.initcalls h1 p hp
  | callReturned n t rv d =>
    cases hl : lookupName n st.initcalls with
    | none =>
      simp only [GoodState, step, hl]
      exact ⟨h1, h2, h3⟩
    | some ic =>
      simp only [GoodState, step, hl]
      refine ⟨?_, h2, h3⟩
      intro p hp
      exact updateKey_forall (fun ic => GoodEntity (Initcall.toEntity ic)) n _
        (fun b hb => goodEntity_addEnd _ _ _ _ (Int.natCast_nonneg d) hb)
        st.initcalls h1 p hp
  | probeReturned n t rv d =>
    cases hl : lookupName n st.probes with
    | none =>
      simp only [GoodState, step, hl]
      refine ⟨h1, ?_, h3⟩
      intro p hp
      rcases List.mem_append.mp hp with hin | hnew
      · exact h2 p hin
      · simp only [List.mem_singleton] at hnew
        subst hnew
        exact goodEntity_make _ _ _ _ _ _ (Int.natCast_nonneg d)
    | some pe =>
      simp only [GoodState, step, hl]
      refine ⟨h1, ?_, h3⟩
      intro p hp
      exact updateKey_forall GoodEntity n _
        (fun b hb => goodEntity_addRun _ _ _ _ _ (Int.natCast_nonneg d) hb)
        st.probes h2 p hp
  | initStarted n t =>
    cases hi : st.init with
    | none =>
      simp only [GoodState, step, hi]
      refine ⟨h1, h2, ?_⟩
      intro i hin
      obtain rfl := Option.some.inj hin
      exact goodEntity_make _ _ _ _ _ _ (le_refl 0)
    | some i0 =>
      simp only [GoodState, step, hi]
      refine ⟨h1, h2, ?_⟩
      intro i hin
      exact h3 i (hi.trans hin)

theorem goodState_ingest (cs : Nat → Nat × Nat × Nat) (b : Bool) :
    ∀ (evs : List Event) (st : EngineState), GoodState st →
      GoodState (ingest cs b st evs)
  | [], _, h => h
  | ev :: rest, st, h => by
    simp only [ingest]
    split
    · exact goodState_step cs st ev h
    · exact goodState_ingest cs b rest _ (goodState_step cs st ev h)

/-- C7: in any state the engine can reach from any feed, every entity — in
the initcalls map, the probes map, or the init singleton — satisfies
`wasted_time ≤ duration`. -/
theorem c7_wasted_le_duration (cs : Nat → Nat × Nat × Nat) (b : Bool)
    (evs : List Event) :
    (∀ (n : String) (ic : Initcall),
      lookupName n (runEngine cs b evs).initcalls = some ic →
      (Initcall.toEntity ic).wasted_time ≤ (Initcall.toEntity ic).duration) ∧
    (∀ (n : String) (pe : Entity),
      lookupName n (runEngine cs b evs).probes = some pe →
      pe.wasted_time ≤ pe.duration) ∧
    (∀ ie : Entity, (runEngine cs b evs).init = some ie →
      ie.wasted_time ≤ ie.duration) := by
  have hgood : GoodState (runEngine cs b evs) :=
    goodState_ingest cs b evs initialState
      ⟨by simp [initialState], by simp [initialState], by simp [initialState]⟩
  obtain ⟨h1, h2, h3⟩ := hgood
  refine ⟨?_, ?_, ?_⟩
  · intro n ic hl
    exact goodEntity_wasted_le _ (h1 (n, ic) (mem_of_lookupName n ic _ hl))
  · intro n pe hl
    exact goodEntity_wasted_le _ (h2 (n, pe) (mem_of_lookupName n pe _ hl))
  · intro ie hi
    exact goodEntity_wasted_le _ (h3 ie hi)

/-- C7 witness: the theorem applied to the initcall produced by `feedA`. -/
theorem c7_wasted_le_duration_witness :
    lookupName "foo" (runEngine constColor false feedA).initcalls = some icFoo ∧
    (Initcall.toEntity icFoo).wasted_time ≤ (Initcall.toEntity icFoo).duration := by
  exact ⟨by decide,
    (c7_wasted_le_duration constColor false feedA).1 "foo" icFoo (by decide)⟩

/-! ## Slot-assigner lemmas (C3) -/

/-- A conflicting lane is one already assigned to some probe. -/
theorem hasConflict_mem_usedLanes (probes : List Entity) (slots : Slots) (s : Int)
    (L : Nat) (h : hasConflict probes slots s L = true) : L ∈ usedLanes probes slots := by
  rcases List.any_eq_true.mp h with ⟨j, hj, hcond⟩
  rcases (Bool.and_eq_true _ _).mp hcond with ⟨_, hslot⟩
  refine List.mem_filterMap.mpr ⟨j, hj, ?_⟩
  exact beq_iff_eq.mp hslot

theorem le_foldr_max (x : Nat) : ∀ l : List Nat, x ∈ l → x ≤ l.foldr max 0
  | [], h => absurd h (List.not_mem_nil x)
  | a :: t, h => by
    rcases List.mem_cons.mp h with rfl | ht
    · exact le_max_left _ _
    · exact le_trans (le_foldr_max x t ht) (le_max_right _ _)

/-- Any lane at or above `slotBound` is conflict-free. -/
theorem hasConflict_ge_bound (probes : List Entity) (slots : Slots) (s : Int) (L : Nat)
    (hL : slotBound probes slots ≤ L) : hasConflict probes slots s L = false := by
  cases hc : hasConflict probes slots s L with
  | false => rfl
  | true =>
    have hmem := hasConflict_mem_usedLanes probes slots s L hc
    have := le_foldr_max L _ hmem
    simp only [slotBound] at hL
    omega

theorem findSlotFrom_conflict_free (probes : List Entity) (slots : Slots) (s : Int) :
    ∀ (fuel y : Nat), (∀ L, y + fuel ≤ L → hasConflict probes slots s L = false) →
      hasConflict probes slots s (findSlotFrom probes slots s fuel y) = false
  | 0, y, h => h y (by omega)
  | fuel + 1, y, h => by
    simp only [findSlotFrom]
    cases hc : hasConflict probes slots s y with
    | true =>
      simp only [if_pos]
      exact findSlotFrom_conflict_free probes slots s fuel (y + 1)
        (fun L hL => h L (by omega))
    | false => simpa using hc

/-- The lane picked by the while-loop search is conflict-free. -/
theorem hasConflict_findSlot (probes : List Entity) (slots : Slots) (s : Int) :
    hasConflict probes slots s (findSlot probes slots s) = false :=
  findSlotFrom_conflict_free probes slots s (slotBound probes slots) 0
    (fun L hL => hasConflict_ge_bound probes slots s L (by omega))

/-- Processing an entity changes no other name's slot. -/
theorem assignEntityRuns_other (probes : List Entity) (d : Entity) (n : String)
    (hne : n ≠ d.name) :
    ∀ (rs : List Run) (slots : Slots), assignEntityRuns probes d slots rs n = slots n
  | [], _ => rfl
  | r :: rs, slots => by
    rw [assignEntityRuns, assignEntityRuns_other probes d n hne rs]
    simp [setSlot, hne]

/-- Processing a list of entities changes no unlisted name's slot. -/
theorem assignAll_not_mem (probes : List Entity) (n : String) :
    ∀ (es : List Entity) (slots : Slots), n ∉ es.map Entity.name →
      assignAll probes slots es n = slots n
  | [], _, _ => rfl
  | d :: ds, slots, h => by
    have hd : n ≠ d.name := by
      intro heq
      exact h (by simp [heq])
    have hds : n ∉ ds.map Entity.name := fun hc => h (by simp [hc])
    rw [assignAll, assignAll_not_mem probes n ds _ hds,
      assignEntityRuns_other probes d n hd]

/-- After processing an entity with a nonempty run list, its slot is the one
found for its last run, against a slot table that differs from the incoming
one only at the entity's own name. -/
theorem assignEntityRuns_last (probes : List Entity) (d : Entity) :
    ∀ (rs : List Run) (slots : Slots), rs ≠ [] →
      ∃ slots' : Slots, (∀ m, m ≠ d.name → slots' m = slots m) ∧
        assignEntityRuns probes d slots rs d.name =
          some (findSlot probes slots' (rs.getLastD defRun).start_time)
  | [], _, h => absurd rfl h
  | [r], slots, _ => by
    refine ⟨slots, fun m _ => rfl, ?_⟩
    simp [assignEntityRuns, setSlot]
  | r :: r' :: rs, slots, _ => by
    obtain ⟨slots', hoth, hval⟩ :=
      assignEntityRuns_last probes d (r' :: rs)
        (setSlot slots d.name (findSlot probes slots r.start_time)) (by simp)
    refine ⟨slots', ?_, ?_⟩
    · intro m hm
      rw [hoth m hm]
      simp [setSlot, hm]
    · exact hval

theorem assignAll_append (probes : List Entity) :
    ∀ (l1 l2 : List Entity) (slots : Slots),
      assignAll probes slots (l1 ++ l2) = assignAll probes (assignAll probes slots l1) l2
  | [], _, _ => rfl
  | d :: t, l2, slots => by
    simp only [List.cons_append, assignAll]
    exact assignAll_append probes t l2 _

/-- Core collision-freedom property of the processed assignment: if `p` is
processed before `q`, both end with lane `L`, and `p` belongs to the conflict
collection, then `p` is not running at the start of `q`'s last run. -/
theorem assign_no_overlap_at_last (P : List Entity) (es es1 es2 : List Entity)
    (q p : Entity) (slots0 : Slots) (L : Nat)
    (hsplit : es = es1 ++ q :: es2)
    (hnd : (es.map Entity.name).Nodup)
    (hp1 : p ∈ es1) (hpP : p ∈ P) (hqruns : q.runs ≠ []) (hpq : p.name ≠ q.name)
    (hfp : assignAll P slots0 es p.name = some L)
    (hfq : assignAll P slots0 es q.name = some L) :
    p.running_at q.last_start_time = false := by
  subst hsplit
  rw [List.map_append, List.nodup_append] at hnd
  obtain ⟨hnd1, hnd2, hdisj⟩ := hnd
  have hpname1 : p.name ∈ es1.map Entity.name := List.mem_map_of_mem Entity.name hp1
  have hpnot2 : p.name ∉ (q :: es2).map Entity.name := hdisj hpname1
  have hpnotes2 : p.name ∉ es2.map Entity.name := by
    intro hc
    exact hpnot2 (by simp [hc])
  have hqnotes2 : q.name ∉ es2.map Entity.name := by
    simp only [List.map_cons, List.nodup_cons] at hnd2
    exact hnd2.1
  -- the state after processing es1
  set slotsA := assignAll P slots0 es1 with hA
  have hstep : assignAll P slots0 (es1 ++ q :: es2) =
      assignAll P (assignEntityRuns P q slotsA q.runs) es2 := by
    rw [assignAll_append]
    rfl
  -- p's final slot was fixed before q was processed
  have hfp' : slotsA p.name = some L := by
    rw [hstep, assignAll_not_mem P p.name es2 _ hpnotes2,
      assignEntityRuns_other P q p.name hpq] at hfp
    exact hfp
  -- q's final slot is the one found for its last run
  obtain ⟨slots', hoth, hval⟩ := assignEntityRuns_last P q q.runs slotsA hqruns
  have hfq' : findSlot P slots' (q.runs.getLastD defRun).start_time = L := by
    rw [hstep, assignAll_not_mem P q.name es2 _ hqnotes2, hval] at hfq
    exact Option.some.inj hfq
  -- that lane is conflict-free at the last run's start instant
  have hfree := hasConflict_findSlot P slots' (q.runs.getLastD defRun).start_time
  rw [hfq'] at hfree
  have hall := List.any_eq_false.mp hfree p hpP
  have hslot' : slots' p.name = some L := by
    rw [hoth p.name hpq]
    exact hfp'
  simp only [hslot', beq_self_eq_true, Bool.and_true] at hall
  exact Bool.eq_false_iff.mpr hall

theorem insertByStart_perm (d : Entity) :
    ∀ l : List Entity, (insertByStart d l).Perm (d :: l)
  | [] => List.Perm.refl _
  | x :: xs => by
    simp only [insertByStart]
    split
    · exact List.Perm.refl _
    · exact ((insertByStart_perm d xs).cons x).trans (List.Perm.swap d x xs)

theorem sortByStart_perm : ∀ l : List Entity, (sortByStart l).Perm l
  | [] => List.Perm.refl _
  | x :: xs => (insertByStart_perm x (sortByStart xs)).trans ((sortByStart_perm xs).cons x)

/-- C3 corrected: what the greedy loop actually guarantees.  Two distinct
probe entities that end in the same lane can still overlap (see the
counterexample), but they can never MUTUALLY overlap at each other's
last-run start instants: if both final slots are `L`, the later-processed
one chose `L` only because the other was not running (strictly) at the start
of its last run. -/
theorem c3_no_same_lane_mutual_overlap (probes : List Entity)
    (hnd : (probes.map Entity.name).Nodup)
    (p q : Entity) (hp : p ∈ probes) (hq : q ∈ probes)
    (hpq : p.name ≠ q.name) (hpruns : p.runs ≠ []) (hqruns : q.runs ≠ [])
    (L : Nat)
    (hpL : assignSlots probes p.name = some L)
    (hqL : assignSlots probes q.name = some L) :
    ¬(p.running_at q.last_start_time = true ∧
      q.running_at p.last_start_time = true) := by
  rintro ⟨hpr, hqr⟩
  have hper : (sortByStart probes).Perm probes := sortByStart_perm probes
  have hndes : ((sortByStart probes).map Entity.name).Nodup :=
    ((hper.map Entity.name).nodup_iff).mpr hnd
  have hpes : p ∈ sortByStart probes := hper.mem_iff.mpr hp
  have hqes : q ∈ sortByStart probes := hper.mem_iff.mpr hq
  have hne : p ≠ q := fun h => hpq (by rw [h])
  obtain ⟨l1, l2, hsplit⟩ := List.append_of_mem hqes
  have hpml : p ∈ l1 ∨ p ∈ l2 := by
    rw [hsplit] at hpes
    rcases List.mem_append.mp hpes with h1 | h2
    · exact Or.inl h1
    · rcases List.mem_cons.mp h2 with h3 | h4
      · exact absurd h3 hne
      · exact Or.inr h4
  rcases hpml with hin1 | hin2
  · have hfalse := assign_no_overlap_at_last probes (sortByStart probes) l1 l2 q p
      (fun _ => none) L hsplit hndes hin1 hp hqruns hpq hpL hqL
    rw [hfalse] at hpr
    exact Bool.false_ne_true hpr
  · obtain ⟨m1, m2, hsplit2⟩ := List.append_of_mem hin2
    have hsplit' : sortByStart probes = (l1 ++ q :: m1) ++ p :: m2 := by
      rw [hsplit, hsplit2]
      simp
    have hqin : q ∈ l1 ++ q :: m1 := by simp
    have hfalse := assign_no_overlap_at_last probes (sortByStart probes)
      (l1 ++ q :: m1) m2 p q (fun _ => none) L hsplit' hndes hqin hq hpruns
      (fun h => hpq h.symm) hqL hpL
    rw [hfalse] at hqr
    exact Bool.false_ne_true hqr

/-- Two probes whose single runs start at the same instant (strict
`running_at` sees neither running at that shared start). -/
def probeA : Entity := ⟨"a", (0, 0, 0), [⟨0, 100, 100, 0, true⟩]⟩

def probeB : Entity := ⟨"b", (0, 0, 0), [⟨0, 50, 50, 0, true⟩]⟩

/-- The feed producing `probeA` and `probeB` through the engine. -/
def feedC : List Event :=
  [Event.probeReturned "a" 100 0 100, Event.probeReturned "b" 50 0 50]

/-- C3 counterexample: the engine's probe map for `feedC` holds two probes
whose runs both cover the instant 25, yet the slot assignment gives both
entities lane 0 — the `while` guard checks overlap only at a run's start
instant, and with equal start times the strict `running_at` sees no
conflict.  This refutes the claim that two entities running at a common
instant never share a lane. -/
theorem c3_counterexample_shared_lane_overlap :
    (runEngine constColor false feedC).probes.map Prod.snd = [probeA, probeB] ∧
    assignSlots [probeA, probeB] "a" = some 0 ∧
    assignSlots [probeA, probeB] "b" = some 0 ∧
    probeA.name ≠ probeB.name ∧
    probeA.running_at 25 = true ∧
    probeB.running_at 25 = true := by
  exact ⟨by decide, rfl, rfl, by decide, by decide, by decide⟩

/-- C3 witness: the corrected theorem applied to the concrete pair, with all
hypotheses discharged by evaluation. -/
theorem c3_no_same_lane_mutual_overlap_witness :
    (([probeA, probeB].map Entity.name).Nodup) ∧
    ¬(probeA.running_at probeB.last_start_time = true ∧
      probeB.running_at probeA.last_start_time = true) := by
  refine ⟨by decide, ?_⟩
  exact c3_no_same_lane_mutual_overlap [probeA, probeB] (by decide) probeA probeB
    (by decide) (by decide) (by decide) (by decide) (by decide) 0 rfl rfl
